import Mathlib

/-!
Shallow embedding of `src/model.py`: a tree-walking evaluator for a small
imperative expression language (numbers, references, unary/binary operators,
lexically chained scopes, user functions, conditionals, print/read).

The Python evaluator is mutable and effectful; here evaluation threads an
explicit state (current scope chain, input stream, output stream) and returns
`Except Err (Value × EvalState)`.  Python's runtime value universe for
`evaluate` results is `Number | Function | None`, embedded as `Value`.

Python exceptions are embedded as `Err`:
 * `nameError`       – the bare `Exception` raised by `Scope.__getitem__`
                       on a lookup miss (the spec's NameResolutionError);
 * `operatorErr`     – `KeyError` from `self.ops[self.op]` on an unknown
                       operator symbol (the spec's OperatorError);
 * `arithmeticErr`   – `ZeroDivisionError` from `//` / `%` by zero
                       (the spec's ArithmeticError);
 * `indexError`      – `IndexError` from `results[i]` when a `FunctionCall`
                       supplies fewer arguments than the callee has parameters;
 * `attributeError`  – `AttributeError` from reading `.value` / `.args` off a
                       non-`Number` / non-`Function` object;
 * `eofError`        – `input()` on an exhausted input stream;
 * `timeout`         – fuel exhaustion, a modeling artifact standing for
                       non-termination (Python recursion has no fuel).

Since the language admits non-terminating programs, `eval` consumes fuel;
every recursive call strictly decreases it.  All theorems are stated either
with explicit fuel hypotheses or for all fuel values.
-/

namespace Model

/-- The ten AST node kinds of `model.py`.  `FunctionDefinition` carries its
`Function` payload (parameter names, body) inline; `Conditional`'s branches
mirror the Python attributes `if_true` / `if_false`, either of which may be
`None` or an (possibly empty) statement list. -/
inductive Expr where
  | number (n : Int)
  | reference (name : String)
  | unaryOperation (op : String) (expr : Expr)
  | binaryOperation (lhs : Expr) (op : String) (rhs : Expr)
  | functionDefinition (name : String) (params : List String) (body : List Expr)
  | functionCall (funExpr : Expr) (args : List Expr)
  | conditional (cond : Expr) (ifTrue : Option (List Expr)) (ifFalse : Option (List Expr))
  | print (expr : Expr)
  | read (name : String)

/-- Runtime results of `evaluate` in `model.py`: a `Number`, a `Function`
object, or Python's `None` (returned by a `Conditional` that executes no
statement). -/
inductive Value where
  | num (n : Int)
  | func (params : List String) (body : List Expr)
  | vnone

/-- Embedded Python exceptions; see the module docstring. -/
inductive Err where
  | nameError
  | operatorErr
  | arithmeticErr
  | indexError
  | attributeError
  | eofError
  | timeout
deriving DecidableEq

/-- `d[k]` on the embedded dict: first (and by `dictSet` construction only)
binding of `k`. -/
def dictGet : List (String × Value) → String → Option Value
  | [], _ => none
  | (k', v') :: rest, k => if k' = k then some v' else dictGet rest k

/-- `d[k] = v` on the embedded dict: overwrite in place if present, else
append — Python dict insert-or-overwrite semantics. -/
def dictSet : List (String × Value) → String → Value → List (String × Value)
  | [], k, v => [(k, v)]
  | (k', v') :: rest, k, v =>
      if k' = k then (k, v) :: rest else (k', v') :: dictSet rest k v

/-- `Scope` from `model.py`: an own dict plus an optional parent
(`root` ↔ `parent is None`). -/
inductive Scope where
  | root (dict : List (String × Value))
  | child (dict : List (String × Value)) (parent : Scope)

/-- `Scope.__getitem__`: own dict first, else recurse into the parent;
a miss at the root is a lookup failure (Python raises a bare `Exception`). -/
def Scope.get : Scope → String → Option Value
  | .root d, k => dictGet d k
  | .child d p, k =>
      match dictGet d k with
      | some v => some v
      | none => p.get k

/-- `Scope.__setitem__`: always writes into the current scope's own dict,
never into an ancestor's. -/
def Scope.set : Scope → String → Value → Scope
  | .root d, k, v => .root (dictSet d k v)
  | .child d p, k, v => .child (dictSet d k v) p

/-- Evaluation state: the current scope chain plus the external input and
output integer channels used by `Read` / `Print`. -/
structure EvalState where
  scope : Scope
  input : List Int
  output : List Int

/-- Reading `.value` off an evaluation result: succeeds only on a `Number`;
on a `Function` or `None`, Python raises `AttributeError`. -/
def getNum : Value → Except Err Int
  | .num n => .ok n
  | _ => .error .attributeError

/-- `UnaryOperation.ops` dispatch: `-` is `operator.neg`, `!` is
`operator.not_` (true exactly on 0) boxed back through `Number` as 0/1;
any other symbol is a `KeyError`. -/
def unaryOp (op : String) (a : Int) : Except Err Int :=
  if op = "-" then .ok (-a)
  else if op = "!" then .ok (if a = 0 then 1 else 0)
  else .error .operatorErr

/-- `BinaryOperation.ops` dispatch.  `/` is Python's `//` (floor division)
and `%` Python's `%` (sign of the divisor), both embedded as `Int.fdiv` /
`Int.fmod`; comparisons and `&&` / `||` produce `bool` which `Number`
coerces to 0/1; any other symbol is a `KeyError`. -/
def binOp (op : String) (l r : Int) : Except Err Int :=
  if op = "+" then .ok (l + r)
  else if op = "-" then .ok (l - r)
  else if op = "*" then .ok (l * r)
  else if op = "/" then
    if r = 0 then .error .arithmeticErr else .ok (Int.fdiv l r)
  else if op = "%" then
    if r = 0 then .error .arithmeticErr else .ok (Int.fmod l r)
  else if op = "==" then .ok (if l = r then 1 else 0)
  else if op = "!=" then .ok (if l = r then 0 else 1)
  else if op = "<" then .ok (if l < r then 1 else 0)
  else if op = ">" then .ok (if r < l then 1 else 0)
  else if op = "<=" then .ok (if l ≤ r then 1 else 0)
  else if op = ">=" then .ok (if r ≤ l then 1 else 0)
  else if op = "&&" then .ok (if l ≠ 0 ∧ r ≠ 0 then 1 else 0)
  else if op = "||" then .ok (if l ≠ 0 ∨ r ≠ 0 then 1 else 0)
  else .error .operatorErr

/-- The binding loop of `FunctionCall.evaluate`:
`for i, x in enumerate(func.args): call_scope[x] = results[i]`.
Parameters are paired positionally with the evaluated arguments; extra
arguments are silently ignored, a missing argument raises `IndexError`. -/
def bindLoop : List String → List Value → List (String × Value) →
    Except Err (List (String × Value))
  | [], _, d => .ok d
  | _ :: _, [], _ => .error .indexError
  | p :: ps, v :: vs, d => bindLoop ps vs (dictSet d p v)

mutual

/-- `evaluate` for each node kind, one clause per Python class; see each
class of `model.py`.  Fuel strictly decreases at every recursive call. -/
def eval : Nat → Expr → EvalState → Except Err (Value × EvalState)
  | 0, _, _ => .error .timeout
  | fuel + 1, e, s =>
    match e with
    | .number n => .ok (.num n, s)
    | .reference name =>
      match s.scope.get name with
      | some v => .ok (v, s)
      | none => .error .nameError
    | .unaryOperation op expr => do
      let (v, s1) ← eval fuel expr s
      let a ← getNum v
      let b ← unaryOp op a
      .ok (.num b, s1)
    | .binaryOperation lhs op rhs => do
      let (lv, s1) ← eval fuel lhs s
      let l ← getNum lv
      let (rv, s2) ← eval fuel rhs s1
      let r ← getNum rv
      let b ← binOp op l r
      .ok (.num b, s2)
    | .functionDefinition name params body =>
      .ok (.func params body,
           ⟨s.scope.set name (.func params body), s.input, s.output⟩)
    | .functionCall funExpr args => do
      let (fv, s1) ← eval fuel funExpr s
      let (vals, s2) ← evalList fuel args s1
      match fv with
      | .func params body => do
        let d ← bindLoop params vals []
        let (r, s3) ← evalStmtsFrom fuel (.num 0) body
            ⟨Scope.child d s2.scope, s2.input, s2.output⟩
        .ok (r, ⟨s2.scope, s3.input, s3.output⟩)
      | _ => .error .attributeError
    | .conditional cond ifTrue ifFalse => do
      let (cv, s1) ← eval fuel cond s
      let n ← getNum cv
      let body :=
        if n ≠ 0 ∧ ¬ (ifTrue.getD []).isEmpty then ifTrue.getD []
        else if ¬ (ifFalse.getD []).isEmpty then ifFalse.getD []
        else []
      evalStmtsFrom fuel .vnone body s1
    | .print expr => do
      let (v, s1) ← eval fuel expr s
      let a ← getNum v
      .ok (v, ⟨s1.scope, s1.input, s1.output ++ [a]⟩)
    | .read name =>
      match s.input with
      | [] => .error .eofError
      | n :: rest => .ok (.num n, ⟨s.scope.set name (.num n), rest, s.output⟩)

/-- The list comprehension `[x.evaluate(scope) for x in self.args]` of
`FunctionCall.evaluate`: left-to-right evaluation threading the state. -/
def evalList : Nat → List Expr → EvalState → Except Err (List Value × EvalState)
  | _, [], s => .ok ([], s)
  | 0, _ :: _, _ => .error .timeout
  | fuel + 1, e :: rest, s => do
    let (v, s1) ← eval fuel e s
    let (vs, s2) ← evalList fuel rest s1
    .ok (v :: vs, s2)

/-- The statement loop shared by `Function.evaluate` (initial accumulator
`Number(0)`) and `Conditional.evaluate` (initial accumulator `None`):
runs each statement in sequence against the same threaded state and keeps
the last result. -/
def evalStmtsFrom : Nat → Value → List Expr → EvalState →
    Except Err (Value × EvalState)
  | _, v, [], s => .ok (v, s)
  | 0, _, _ :: _, _ => .error .timeout
  | fuel + 1, _, e :: rest, s => do
    let (v1, s1) ← eval fuel e s
    evalStmtsFrom fuel v1 rest s1

end

/-- `Function.evaluate(scope)`: `last = Number(0)` then the statement loop. -/
def functionEvaluate (fuel : Nat) (body : List Expr) (s : EvalState) :
    Except Err (Value × EvalState) :=
  evalStmtsFrom fuel (.num 0) body s

/-- An empty root state used by concrete evaluations. -/
def st0 : EvalState := ⟨Scope.root [], [], []⟩

mutual

/-- "Side-effect-free" exactly as the spec delimits it: the node's tree
contains no `Print`, `Read`, or `FunctionDefinition` node (the language has
no other assignment form).  `FunctionCall` is not excluded by that wording. -/
def sideEffectFree : Expr → Bool
  | .number _ => true
  | .reference _ => true
  | .unaryOperation _ e => sideEffectFree e
  | .binaryOperation l _ r => sideEffectFree l && sideEffectFree r
  | .functionDefinition _ _ _ => false
  | .functionCall f args => sideEffectFree f && sideEffectFreeList args
  | .conditional c t f =>
      sideEffectFree c && sideEffectFreeOpt t && sideEffectFreeOpt f
  | .print _ => false
  | .read _ => false

/-- `sideEffectFree` on an optional branch list. -/
def sideEffectFreeOpt : Option (List Expr) → Bool
  | none => true
  | some l => sideEffectFreeList l

/-- `sideEffectFree` on every element of a statement list. -/
def sideEffectFreeList : List Expr → Bool
  | [] => true
  | e :: rest => sideEffectFree e && sideEffectFreeList rest

end

mutual

/-- Strictly effect-free expressions: additionally excludes `FunctionCall`,
whose callee's stored body may perform I/O not visible in this node's tree. -/
def pureExpr : Expr → Bool
  | .number _ => true
  | .reference _ => true
  | .unaryOperation _ e => pureExpr e
  | .binaryOperation l _ r => pureExpr l && pureExpr r
  | .functionDefinition _ _ _ => false
  | .functionCall _ _ => false
  | .conditional c t f => pureExpr c && pureOpt t && pureOpt f
  | .print _ => false
  | .read _ => false

/-- `pureExpr` on an optional branch list. -/
def pureOpt : Option (List Expr) → Bool
  | none => true
  | some l => pureList l

/-- `pureExpr` on every element of a statement list. -/
def pureList : List Expr → Bool
  | [] => true
  | e :: rest => pureExpr e && pureList rest

end

/-- Branch selection of `Conditional` exactly as the spec words it: the
true-branch sequence iff the condition is nonzero and the true branch exists
and is non-empty, otherwise the false-branch sequence if present (an absent
branch contributing no statements). -/
def specSelect (n : Int) (t f : Option (List Expr)) : List Expr :=
  if n ≠ 0 ∧ ¬ (t.getD []).isEmpty then t.getD [] else f.getD []

/-- A scope binding `f` to a parameterless function whose body reads one
integer from the input channel; used to exercise claim C9. -/
def readFnScope : Scope := Scope.root [("f", .func [] [.read "x"])]

/-- The state after defining `g` as the identity function over parameter
`x` in an empty root scope; used to exercise claims C1 and C5. -/
def stG : EvalState := ⟨Scope.root [("g", .func ["x"] [.reference "x"])], [], []⟩

/-! ## Helper lemmas -/

theorem okBind {α β : Type} (a : α) (f : α → Except Err β) :
    (Except.ok a >>= f) = f a := rfl

theorem errBind {α β : Type} (e : Err) (f : α → Except Err β) :
    ((Except.error e : Except Err α) >>= f) = .error e := rfl

theorem dictGet_dictSet_self (d : List (String × Value)) (k : String) (v : Value) :
    dictGet (dictSet d k v) k = some v := by
  induction d with
  | nil => simp [dictGet, dictSet]
  | cons hd tl ih =>
    obtain ⟨k', v'⟩ := hd
    by_cases h : k' = k <;> simp [dictGet, dictSet, h, ih]

theorem dictGet_dictSet_ne (d : List (String × Value)) (k k' : String) (v : Value)
    (h : k' ≠ k) : dictGet (dictSet d k v) k' = dictGet d k' := by
  induction d with
  | nil => simp [dictGet, dictSet, Ne.symm h]
  | cons hd tl ih =>
    obtain ⟨k0, v0⟩ := hd
    by_cases h0 : k0 = k <;>
      simp [dictGet, dictSet, h0, ih, Ne.symm h]

theorem fdiv_neg_neg (a b : Int) : Int.fdiv (-a) (-b) = Int.fdiv a b := by
  cases a with
  | ofNat m =>
    cases m with
    | zero =>
      cases b with
      | ofNat n => cases n <;> rfl
      | negSucc n => rfl
    | succ m =>
      cases b with
      | ofNat n =>
        cases n with
        | zero =>
          show (0 : Int) = Int.ofNat ((m + 1) / 0)
          rw [Nat.div_zero]
          rfl
        | succ n => rfl
      | negSucc n => rfl
  | negSucc m =>
    cases b with
    | ofNat n =>
      cases n with
      | zero =>
        show Int.ofNat ((m + 1) / 0) = (0 : Int)
        rw [Nat.div_zero]
        rfl
      | succ n => rfl
    | negSucc n => rfl

theorem fdiv_floor_pos (a : Int) {b : Int} (hb : 0 < b) :
    Int.fdiv a b = ⌊(a : ℚ) / (b : ℚ)⌋ := by
  have hbq : (0 : ℚ) < (b : ℚ) := by exact_mod_cast hb
  have hid : (b : ℚ) * (Int.fdiv a b : ℚ) + (Int.fmod a b : ℚ) = (a : ℚ) := by
    exact_mod_cast Int.fdiv_add_fmod a b
  have h0 : (0 : ℚ) ≤ (Int.fmod a b : ℚ) := by
    exact_mod_cast Int.fmod_nonneg' a hb
  have h1 : (Int.fmod a b : ℚ) < (b : ℚ) := by
    exact_mod_cast Int.fmod_lt_of_pos a hb
  symm
  rw [Int.floor_eq_iff]
  constructor
  · rw [le_div_iff₀ hbq]
    nlinarith
  · rw [div_lt_iff₀ hbq]
    nlinarith

theorem fdiv_eq_floor (a b : Int) (hb : b ≠ 0) :
    Int.fdiv a b = ⌊(a : ℚ) / (b : ℚ)⌋ := by
  rcases lt_or_gt_of_ne hb with hneg | hpos
  · have h2 : Int.fdiv a b = Int.fdiv (-a) (-b) := (fdiv_neg_neg a b).symm
    rw [h2, fdiv_floor_pos (-a) (neg_pos.mpr hneg)]
    congr 1
    push_cast
    rw [neg_div_neg_eq]
  · exact fdiv_floor_pos a hpos

/-! ## Claim theorems -/

/-- Claim C4: after `set(n, v)` on a child scope, `get(n)` on that child
returns `v` even when an ancestor binds `n`; the write lands only in the
child's own table, leaving the parent scope (hence the ancestor's binding)
structurally untouched. -/
theorem scope_set_shadows_parent (d : List (String × Value)) (p : Scope)
    (n : String) (v w : Value) (h : p.get n = some w) :
    ((Scope.child d p).set n v).get n = some v ∧
    (Scope.child d p).set n v = Scope.child (dictSet d n v) p ∧
    p.get n = some w := by
  refine ⟨?_, rfl, h⟩
  simp [Scope.set, Scope.get, dictGet_dictSet_self]

/-- Witness for C4: shadowing `bar` (bound to 10 at the root) with 20 in a
child scope, as in `test_scope`. -/
theorem scope_set_shadows_parent_w :
    ((Scope.child [] (Scope.root [("bar", Value.num 10)])).set "bar" (Value.num 20)).get "bar"
        = some (Value.num 20) ∧
    (Scope.child [] (Scope.root [("bar", Value.num 10)])).set "bar" (Value.num 20)
        = Scope.child (dictSet [] "bar" (Value.num 20)) (Scope.root [("bar", Value.num 10)]) ∧
    (Scope.root [("bar", Value.num 10)]).get "bar" = some (Value.num 10) :=
  scope_set_shadows_parent [] (Scope.root [("bar", Value.num 10)]) "bar"
    (Value.num 20) (Value.num 10) rfl

/-- Claim C10: a `Conditional` whose condition evaluates to zero and whose
false branch is a present-but-empty sequence executes no statements and
returns the `None` sentinel, exactly as when the false branch is absent. -/
theorem conditional_empty_false_branch (fuel : Nat) (c : Expr)
    (t : Option (List Expr)) (s s1 : EvalState)
    (h : eval fuel c s = .ok (.num 0, s1)) :
    eval (fuel + 1) (.conditional c t (some [])) s = .ok (.vnone, s1) ∧
    eval (fuel + 1) (.conditional c t none) s = .ok (.vnone, s1) := by
  constructor <;>
    simp [eval, h, okBind, getNum, evalStmtsFrom]

/-- Witness for C10: condition `0` with true branch `[5]`. -/
theorem conditional_empty_false_branch_w :
    eval 2 (.conditional (.number 0) (some [.number 5]) (some [])) st0
        = .ok (.vnone, st0) ∧
    eval 2 (.conditional (.number 0) (some [.number 5]) none) st0
        = .ok (.vnone, st0) :=
  conditional_empty_false_branch 1 (.number 0) (some [.number 5]) st0 st0 rfl


/-- Claim C3: for integers `a`, `b` with `b ≠ 0`, `BinaryOperation` with `/`
yields the floor of `a / b` (rounding toward negative infinity), and `%` the
modulo consistent with floor division, so `a = b * (a / b) + (a % b)`. -/
theorem binop_div_mod_floor (a b : Int) (fuel : Nat) (s : EvalState)
    (hb : b ≠ 0) :
    eval (fuel + 2) (.binaryOperation (.number a) "/" (.number b)) s
        = .ok (.num (Int.fdiv a b), s) ∧
    eval (fuel + 2) (.binaryOperation (.number a) "%" (.number b)) s
        = .ok (.num (Int.fmod a b), s) ∧
    Int.fdiv a b = ⌊(a : ℚ) / (b : ℚ)⌋ ∧
    a = b * Int.fdiv a b + Int.fmod a b := by
  refine ⟨?_, ?_, fdiv_eq_floor a b hb, (Int.fdiv_add_fmod a b).symm⟩ <;>
    simp [eval, okBind, getNum, binOp, hb]

/-- Witness for C3 at `a = -7`, `b = 2` (where flooring and truncation
differ: the result is `-4`, not `-3`). -/
theorem binop_div_mod_floor_w :
    eval 3 (.binaryOperation (.number (-7)) "/" (.number 2)) st0
        = .ok (.num (Int.fdiv (-7) 2), st0) ∧
    eval 3 (.binaryOperation (.number (-7)) "%" (.number 2)) st0
        = .ok (.num (Int.fmod (-7) 2), st0) ∧
    Int.fdiv (-7) 2 = ⌊((-7 : Int) : ℚ) / ((2 : Int) : ℚ)⌋ ∧
    (-7 : Int) = 2 * Int.fdiv (-7) 2 + Int.fmod (-7) 2 :=
  binop_div_mod_floor (-7) 2 1 st0 (by decide)

/-- Claim C6: a `BinaryOperation` with `&&` or `||` that evaluates
successfully always yields a `Number` whose value is exactly 0 or 1, never
the raw value of either operand. -/
theorem binop_logical_bool01 (fuel : Nat) (lhs rhs : Expr) (op : String)
    (s : EvalState) (v : Value) (s' : EvalState)
    (hop : op = "&&" ∨ op = "||")
    (h : eval fuel (.binaryOperation lhs op rhs) s = .ok (v, s')) :
    v = .num 0 ∨ v = .num 1 := by
  match fuel with
  | 0 => simp [eval] at h
  | fuel + 1 =>
    simp only [eval] at h
    cases hl : eval fuel lhs s with
    | error e => simp [hl, errBind] at h
    | ok p =>
      obtain ⟨lv, s1⟩ := p
      simp only [hl, okBind] at h
      cases lv with
      | func ps bd => simp [getNum, errBind] at h
      | vnone => simp [getNum, errBind] at h
      | num l =>
        simp only [show getNum (Value.num l) = .ok l from rfl, okBind] at h
        cases hr : eval fuel rhs s1 with
        | error e => simp [hr, errBind] at h
        | ok q =>
          obtain ⟨rv, s2⟩ := q
          simp only [hr, okBind] at h
          cases rv with
          | func ps bd => simp [getNum, errBind] at h
          | vnone => simp [getNum, errBind] at h
          | num r =>
            simp only [show getNum (Value.num r) = .ok r from rfl, okBind] at h
            rcases hop with hop | hop <;> subst hop
            · simp only [show binOp "&&" l r
                  = .ok (if l ≠ 0 ∧ r ≠ 0 then (1 : Int) else 0) from rfl,
                okBind, Except.ok.injEq, Prod.mk.injEq] at h
              obtain ⟨hv, _⟩ := h
              by_cases hc : l ≠ 0 ∧ r ≠ 0
              · right; rw [← hv]; simp [hc]
              · left; rw [← hv]; simp [hc]
            · simp only [show binOp "||" l r
                  = .ok (if l ≠ 0 ∨ r ≠ 0 then (1 : Int) else 0) from rfl,
                okBind, Except.ok.injEq, Prod.mk.injEq] at h
              obtain ⟨hv, _⟩ := h
              by_cases hc : l ≠ 0 ∨ r ≠ 0
              · right; rw [← hv]; simp [hc]
              · left; rw [← hv]; simp [hc]

/-- Witness for C6: `5 && -2` evaluates to `Number(1)`, which is 0 or 1. -/
theorem binop_logical_bool01_w :
    Value.num 1 = Value.num 0 ∨ Value.num 1 = Value.num 1 :=
  binop_logical_bool01 2 (.number 5) (.number (-2)) "&&" st0 (.num 1) st0
    (Or.inl rfl) (by rfl)

/-- Claim C7: `/` or `%` with a right operand evaluating to 0 fails with
`ArithmeticError`; any evaluation error propagates unchanged through every
recursive evaluation context (operand positions, callee position, condition
position, statement sequences), with no catch, retry, or default value. -/
theorem div_zero_arithmetic_error_propagates (fuel : Nat) (s : EvalState) :
    (∀ (lhs rhs : Expr) (op : String) (l : Int) (s1 s2 : EvalState),
      (op = "/" ∨ op = "%") →
      eval fuel lhs s = .ok (.num l, s1) →
      eval fuel rhs s1 = .ok (.num 0, s2) →
      eval (fuel + 1) (.binaryOperation lhs op rhs) s = .error .arithmeticErr) ∧
    (∀ (e : Expr) (err : Err), eval fuel e s = .error err →
      (∀ op, eval (fuel + 1) (.unaryOperation op e) s = .error err) ∧
      (∀ op rhs, eval (fuel + 1) (.binaryOperation e op rhs) s = .error err) ∧
      (∀ args, eval (fuel + 1) (.functionCall e args) s = .error err) ∧
      (∀ t f, eval (fuel + 1) (.conditional e t f) s = .error err) ∧
      eval (fuel + 1) (.print e) s = .error err ∧
      (∀ (v : Value) (rest : List Expr),
        evalStmtsFrom (fuel + 1) v (e :: rest) s = .error err) ∧
      (∀ rest, evalList (fuel + 1) (e :: rest) s = .error err)) := by
  constructor
  · intro lhs rhs op l s1 s2 hop hl hr
    simp only [eval, hl, okBind, show getNum (Value.num l) = .ok l from rfl,
      hr, show getNum (Value.num 0) = .ok (0 : Int) from rfl]
    rcases hop with hop | hop <;> subst hop
    · simp [show binOp "/" l 0 = .error .arithmeticErr from rfl, errBind]
    · simp [show binOp "%" l 0 = .error .arithmeticErr from rfl, errBind]
  · intro e err h
    refine ⟨?_, ?_, ?_, ?_, ?_, ?_, ?_⟩ <;>
      intros <;> simp [eval, evalStmtsFrom, evalList, h, errBind]

/-- Witness for C7: `1 / 0` fails with `ArithmeticError`, and a name
resolution failure propagates out of an enclosing unary operation. -/
theorem div_zero_arithmetic_error_propagates_w :
    eval 3 (.binaryOperation (.number 1) "/" (.number 0)) st0
        = .error .arithmeticErr ∧
    eval 3 (.unaryOperation "-" (.reference "nope")) st0 = .error .nameError :=
  ⟨(div_zero_arithmetic_error_propagates 2 st0).1 (.number 1) (.number 0) "/"
      1 st0 st0 (Or.inl rfl) rfl rfl,
    (((div_zero_arithmetic_error_propagates 2 st0).2 (.reference "nope")
      .nameError rfl).1) "-"⟩


theorem evalStmtsFrom_last (xs : List Expr) :
    ∀ (fuel : Nat) (v : Value) (y : Expr) (s : EvalState) (r : Value)
      (s' : EvalState),
      evalStmtsFrom fuel v (xs ++ [y]) s = .ok (r, s') →
      ∃ fuel2 s1, eval fuel2 y s1 = .ok (r, s') := by
  induction xs with
  | nil =>
    intro fuel v y s r s' h
    match fuel with
    | 0 => simp [evalStmtsFrom] at h
    | fuel + 1 =>
      simp only [List.nil_append, evalStmtsFrom] at h
      cases he : eval fuel y s with
      | error e => simp [he, errBind] at h
      | ok p =>
        obtain ⟨v1, s1⟩ := p
        simp only [he, okBind, evalStmtsFrom, Except.ok.injEq,
          Prod.mk.injEq] at h
        exact ⟨fuel, s, by rw [← h.1, ← h.2]; exact he⟩
  | cons x xs ih =>
    intro fuel v y s r s' h
    match fuel with
    | 0 => simp [evalStmtsFrom] at h
    | fuel + 1 =>
      simp only [List.cons_append, evalStmtsFrom] at h
      cases he : eval fuel x s with
      | error e => simp [he, errBind] at h
      | ok p =>
        obtain ⟨v1, s1⟩ := p
        simp only [he, okBind] at h
        exact ih fuel v1 y s1 r s' h

/-- Claim C8: `Function.evaluate` runs the body statements in sequence
against the given scope and returns the value of the last statement
executed; an empty body yields `Number(0)`. -/
theorem function_evaluate_last_value (fuel : Nat) (s : EvalState) :
    functionEvaluate fuel [] s = .ok (.num 0, s) ∧
    (∀ (body : List Expr) (y : Expr) (r : Value) (s2 : EvalState),
      functionEvaluate fuel (body ++ [y]) s = .ok (r, s2) →
      ∃ fuel2 s1, eval fuel2 y s1 = .ok (r, s2)) := by
  refine ⟨by simp [functionEvaluate, evalStmtsFrom], ?_⟩
  intro body y r s2 h
  exact evalStmtsFrom_last body fuel (.num 0) y s r s2 h

/-- Witness for C8: the empty body yields `Number(0)`; a two-statement body
`[3, 7]` yields the last statement's value `Number(7)`. -/
theorem function_evaluate_last_value_w :
    functionEvaluate 5 [] st0 = .ok (.num 0, st0) ∧
    ∃ fuel2 s1, eval fuel2 (.number 7) s1 = .ok (.num 7, st0) :=
  ⟨(function_evaluate_last_value 5 st0).1,
    (function_evaluate_last_value 5 st0).2 [.number 3] (.number 7) (.num 7)
      st0 (by rfl)⟩

/-- Claim C2: a `Conditional` runs exactly the spec-selected statement
sequence (true branch iff the condition is nonzero and the true branch is
present and non-empty, else the false branch when present) against the same
scope with no new scope; when nothing is selected the result is the `None`
sentinel, which is distinct from `Number(0)`; otherwise the result is the
last selected statement's value. -/
theorem conditional_selects_branch (fuel : Nat) (c : Expr)
    (t f : Option (List Expr)) (s s1 : EvalState) (n : Int)
    (h : eval fuel c s = .ok (.num n, s1)) :
    eval (fuel + 1) (.conditional c t f) s
        = evalStmtsFrom fuel .vnone (specSelect n t f) s1 ∧
    (specSelect n t f = [] →
      eval (fuel + 1) (.conditional c t f) s = .ok (.vnone, s1)) ∧
    Value.vnone ≠ Value.num 0 ∧
    (∀ (ys : List Expr) (y : Expr) (r : Value) (s2 : EvalState),
      specSelect n t f = ys ++ [y] →
      eval (fuel + 1) (.conditional c t f) s = .ok (r, s2) →
      ∃ fuel2 sMid, eval fuel2 y sMid = .ok (r, s2)) := by
  have hmain : eval (fuel + 1) (.conditional c t f) s
      = evalStmtsFrom fuel .vnone (specSelect n t f) s1 := by
    simp only [eval, h, okBind, show getNum (Value.num n) = .ok n from rfl]
    congr 1
    simp only [specSelect]
    by_cases h1 : n ≠ 0 ∧ ¬ (t.getD []).isEmpty
    · simp [h1]
    · simp only [h1, if_false]
      by_cases h2 : (f.getD []).isEmpty
      · simp [h2, List.isEmpty_iff.mp h2]
      · simp [h2]
  refine ⟨hmain, ?_, by simp, ?_⟩
  · intro hsel
    rw [hmain, hsel]
    simp [evalStmtsFrom]
  · intro ys y r s2 hsel heq
    rw [hmain, hsel] at heq
    exact evalStmtsFrom_last ys fuel .vnone y s1 r s2 heq

/-- Witness for C2: condition `3` (nonzero) with non-empty true branch
`[8]` and absent false branch. -/
theorem conditional_selects_branch_w :
    eval 2 (.conditional (.number 3) (some [.number 8]) none) st0
        = evalStmtsFrom 1 .vnone (specSelect 3 (some [.number 8]) none) st0 ∧
    (specSelect 3 (some [.number 8]) none = [] →
      eval 2 (.conditional (.number 3) (some [.number 8]) none) st0
          = .ok (.vnone, st0)) ∧
    Value.vnone ≠ Value.num 0 ∧
    (∀ (ys : List Expr) (y : Expr) (r : Value) (s2 : EvalState),
      specSelect 3 (some [.number 8]) none = ys ++ [y] →
      eval 2 (.conditional (.number 3) (some [.number 8]) none) st0
          = .ok (r, s2) →
      ∃ fuel2 sMid, eval fuel2 y sMid = .ok (r, s2)) :=
  conditional_selects_branch 1 (.number 3) (some [.number 8]) none st0 st0 3
    (by rfl)


theorem bindLoop_short (params : List String) :
    ∀ (vals : List Value) (d : List (String × Value)),
      vals.length < params.length →
      bindLoop params vals d = .error .indexError := by
  induction params with
  | nil => intro vals d h; simp at h
  | cons p ps ih =>
    intro vals d h
    cases vals with
    | nil => rfl
    | cons v vs => exact ih vs (dictSet d p v) (by simpa using h)

/-- Counterexample to claim C1 as stated: calling a one-parameter function
with zero arguments fails already during parameter binding (`results[i]`
raises `IndexError`), even though the body never references the parameter,
so the predicted lazy `NameResolutionError`-only failure mode is wrong. -/
theorem functionCall_missing_arg_cex :
    eval 5 (.functionCall (.functionDefinition "f" ["x"] [.number 0]) []) st0
        = .error .indexError := by rfl

/-- Claim C1 amended: a `FunctionCall` whose argument list is shorter than
the callee's parameter list (callee and arguments themselves evaluating
successfully) fails during parameter binding with an `IndexError`,
regardless of whether the unbound parameter is referenced in the body. -/
theorem functionCall_missing_arg_indexError (fuel : Nat) (funExpr : Expr)
    (args : List Expr) (s : EvalState) (params : List String)
    (body : List Expr) (s1 : EvalState) (vals : List Value) (s2 : EvalState)
    (hf : eval fuel funExpr s = .ok (.func params body, s1))
    (ha : evalList fuel args s1 = .ok (vals, s2))
    (hlen : vals.length < params.length) :
    eval (fuel + 1) (.functionCall funExpr args) s = .error .indexError := by
  simp only [eval, hf, okBind, ha]
  simp [bindLoop_short params vals [] hlen, errBind]

/-- Witness for C1 amended: a two-parameter function called with a single
argument fails with `IndexError`. -/
theorem functionCall_missing_arg_indexError_w :
    eval 5 (.functionCall
        (.functionDefinition "h" ["a", "b"] [.reference "a"]) [.number 1]) st0
      = .error .indexError :=
  functionCall_missing_arg_indexError 4
    (.functionDefinition "h" ["a", "b"] [.reference "a"]) [.number 1] st0
    ["a", "b"] [.reference "a"]
    ⟨Scope.root [("h", .func ["a", "b"] [.reference "a"])], [], []⟩
    [.num 1]
    ⟨Scope.root [("h", .func ["a", "b"] [.reference "a"])], [], []⟩
    (by rfl) (by rfl) (by decide)

theorem bindLoop_notMem (params : List String) :
    ∀ (vals : List Value) (d0 d : List (String × Value)),
      bindLoop params vals d0 = .ok d →
      ∀ q, q ∉ params → dictGet d q = dictGet d0 q := by
  induction params with
  | nil =>
    intro vals d0 d h q _
    cases h
    rfl
  | cons p ps ih =>
    intro vals d0 d h q hq
    cases vals with
    | nil => exact absurd h (by simp [bindLoop])
    | cons v vs =>
      have h1 : q ∉ ps := fun hmem => hq (List.mem_cons_of_mem p hmem)
      have h2 : q ≠ p := fun hqp => hq (hqp ▸ List.mem_cons_self p ps)
      rw [ih vs (dictSet d0 p v) d h q h1]
      exact dictGet_dictSet_ne d0 p q v h2

theorem bindLoop_nodup_get (params : List String) :
    ∀ (vals : List Value) (d0 d : List (String × Value)),
      params.Nodup → bindLoop params vals d0 = .ok d →
      ∀ i (h : i < params.length),
        ∃ h2 : i < vals.length,
          dictGet d (params.get ⟨i, h⟩) = some (vals.get ⟨i, h2⟩) := by
  induction params with
  | nil => intro vals d0 d _ _ i h; simp at h
  | cons p ps ih =>
    intro vals d0 d hnd hb i h
    cases vals with
    | nil => exact absurd hb (by simp [bindLoop])
    | cons v vs =>
      obtain ⟨hp, hps⟩ := List.nodup_cons.mp hnd
      cases i with
      | zero =>
        refine ⟨by simp, ?_⟩
        show dictGet d p = some v
        rw [bindLoop_notMem ps vs (dictSet d0 p v) d hb p hp]
        exact dictGet_dictSet_self d0 p v
      | succ i =>
        have h' : i < ps.length := by simpa using h
        obtain ⟨h2, heq⟩ := ih vs (dictSet d0 p v) d hps hb i h'
        exact ⟨by simpa using Nat.succ_lt_succ h2, heq⟩

/-- Claim C5: `FunctionCall` evaluates the callee against the calling scope,
then every argument against the calling scope (never the new call scope),
creates a new child scope whose parent is the calling scope, binds the
parameters positionally (in declaration order) to the evaluated arguments
(in call order) inside that child, evaluates the body against the child, and
restores the calling scope afterwards. -/
theorem functionCall_protocol (fuel : Nat) (funExpr : Expr)
    (args : List Expr) (s : EvalState) (params : List String)
    (body : List Expr) (s1 : EvalState) (vals : List Value) (s2 : EvalState)
    (d : List (String × Value))
    (hf : eval fuel funExpr s = .ok (.func params body, s1))
    (ha : evalList fuel args s1 = .ok (vals, s2))
    (hd : bindLoop params vals [] = .ok d) :
    (eval (fuel + 1) (.functionCall funExpr args) s =
      match functionEvaluate fuel body
          ⟨Scope.child d s2.scope, s2.input, s2.output⟩ with
      | .ok (r, s3) => .ok (r, ⟨s2.scope, s3.input, s3.output⟩)
      | .error e => .error e) ∧
    (params.Nodup →
      ∀ i (h : i < params.length),
        ∃ h2 : i < vals.length,
          dictGet d (params.get ⟨i, h⟩) = some (vals.get ⟨i, h2⟩)) := by
  constructor
  · simp only [eval, hf, okBind, ha, hd]
    cases hres : functionEvaluate fuel body
        ⟨Scope.child d s2.scope, s2.input, s2.output⟩ with
    | error e => simp [functionEvaluate] at hres; simp [hres, errBind]
    | ok p =>
      obtain ⟨r, s3⟩ := p
      simp [functionEvaluate] at hres
      simp [hres, okBind]
  · intro hnd
    exact bindLoop_nodup_get params vals [] d hnd hd

/-- Witness for C5: calling the identity function `g` with argument `7`
evaluates the body in a child scope binding `x` to `7` whose parent is the
calling scope, and returns `7` with the calling scope restored. -/
theorem functionCall_protocol_w :
    (eval 5 (.functionCall (.functionDefinition "g" ["x"] [.reference "x"])
        [.number 7]) st0 =
      match functionEvaluate 4 [.reference "x"]
          ⟨Scope.child [("x", Value.num 7)] stG.scope, stG.input, stG.output⟩ with
      | .ok (r, s3) => .ok (r, ⟨stG.scope, s3.input, s3.output⟩)
      | .error e => .error e) ∧
    (List.Nodup ["x"] →
      ∀ i (h : i < List.length ["x"]),
        ∃ h2 : i < List.length [Value.num 7],
          dictGet [("x", Value.num 7)] (List.get ["x"] ⟨i, h⟩)
            = some (List.get [Value.num 7] ⟨i, h2⟩)) :=
  functionCall_protocol 4 (.functionDefinition "g" ["x"] [.reference "x"])
    [.number 7] st0 ["x"] [.reference "x"] stG [.num 7] stG
    [("x", Value.num 7)] (by rfl) (by rfl) (by rfl)


theorem pureOpt_getD (o : Option (List Expr)) (h : pureOpt o = true) :
    pureList (o.getD []) = true := by
  cases o with
  | none => rfl
  | some l => simpa [pureOpt] using h

theorem pure_preserve (fuel : Nat) :
    (∀ (e : Expr) (s : EvalState) (v : Value) (s' : EvalState),
      pureExpr e = true → eval fuel e s = .ok (v, s') → s' = s) ∧
    (∀ (l : List Expr) (v0 : Value) (s : EvalState) (r : Value)
        (s' : EvalState),
      pureList l = true → evalStmtsFrom fuel v0 l s = .ok (r, s') →
      s' = s) := by
  induction fuel with
  | zero =>
    constructor
    · intro e s v s' _ h
      simp [eval] at h
    · intro l v0 s r s' _ h
      cases l with
      | nil =>
        simp only [evalStmtsFrom, Except.ok.injEq, Prod.mk.injEq] at h
        exact h.2.symm
      | cons x xs => simp [evalStmtsFrom] at h
  | succ fuel ih =>
    obtain ⟨ihE, ihL⟩ := ih
    constructor
    · intro e s v s' hp h
      cases e with
      | number n =>
        simp only [eval, Except.ok.injEq, Prod.mk.injEq] at h
        exact h.2.symm
      | reference name =>
        simp only [eval] at h
        cases hg : s.scope.get name with
        | none => simp [hg] at h
        | some v0 =>
          simp only [hg, Except.ok.injEq, Prod.mk.injEq] at h
          exact h.2.symm
      | unaryOperation op expr =>
        simp only [pureExpr] at hp
        simp only [eval] at h
        cases he : eval fuel expr s with
        | error e0 => simp [he, errBind] at h
        | ok p =>
          obtain ⟨v1, s1⟩ := p
          simp only [he, okBind] at h
          cases hn : getNum v1 with
          | error e0 => simp [hn, errBind] at h
          | ok a =>
            simp only [hn, okBind] at h
            cases hu : unaryOp op a with
            | error e0 => simp [hu, errBind] at h
            | ok b =>
              simp only [hu, okBind, Except.ok.injEq, Prod.mk.injEq] at h
              rw [h.2.symm]
              exact ihE expr s v1 s1 hp he
      | binaryOperation lhs op rhs =>
        simp only [pureExpr, Bool.and_eq_true] at hp
        simp only [eval] at h
        cases hl : eval fuel lhs s with
        | error e0 => simp [hl, errBind] at h
        | ok p =>
          obtain ⟨lv, s1⟩ := p
          simp only [hl, okBind] at h
          cases hn : getNum lv with
          | error e0 => simp [hn, errBind] at h
          | ok l0 =>
            simp only [hn, okBind] at h
            cases hr : eval fuel rhs s1 with
            | error e0 => simp [hr, errBind] at h
            | ok q =>
              obtain ⟨rv, s2⟩ := q
              simp only [hr, okBind] at h
              cases hm : getNum rv with
              | error e0 => simp [hm, errBind] at h
              | ok r0 =>
                simp only [hm, okBind] at h
                cases hb : binOp op l0 r0 with
                | error e0 => simp [hb, errBind] at h
                | ok b =>
                  simp only [hb, okBind, Except.ok.injEq,
                    Prod.mk.injEq] at h
                  rw [h.2.symm]
                  rw [ihE rhs s1 rv s2 hp.2 hr]
                  exact ihE lhs s lv s1 hp.1 hl
      | functionDefinition name params body => simp [pureExpr] at hp
      | functionCall funExpr args => simp [pureExpr] at hp
      | conditional c t f =>
        simp only [pureExpr, Bool.and_eq_true] at hp
        simp only [eval] at h
        cases hc : eval fuel c s with
        | error e0 => simp [hc, errBind] at h
        | ok p =>
          obtain ⟨cv, s1⟩ := p
          simp only [hc, okBind] at h
          cases hn : getNum cv with
          | error e0 => simp [hn, errBind] at h
          | ok n =>
            simp only [hn, okBind] at h
            have hs1 : s1 = s := ihE c s cv s1 hp.1.1 hc
            rw [← hs1]
            by_cases h1 : n ≠ 0 ∧ ¬ (t.getD []).isEmpty
            · rw [if_pos h1] at h
              exact ihL (t.getD []) .vnone s1 v s'
                (pureOpt_getD t hp.1.2) h
            · rw [if_neg h1] at h
              by_cases h2 : ¬ (f.getD []).isEmpty
              · rw [if_pos h2] at h
                exact ihL (f.getD []) .vnone s1 v s'
                  (pureOpt_getD f hp.2) h
              · rw [if_neg h2] at h
                simp only [evalStmtsFrom, Except.ok.injEq,
                  Prod.mk.injEq] at h
                exact h.2.symm
      | print expr => simp [pureExpr] at hp
      | read name => simp [pureExpr] at hp
    · intro l v0 s r s' hp h
      cases l with
      | nil =>
        simp only [evalStmtsFrom, Except.ok.injEq, Prod.mk.injEq] at h
        exact h.2.symm
      | cons x xs =>
        simp only [pureList, Bool.and_eq_true] at hp
        simp only [evalStmtsFrom] at h
        cases he : eval fuel x s with
        | error e0 => simp [he, errBind] at h
        | ok p =>
          obtain ⟨v1, s1⟩ := p
          simp only [he, okBind] at h
          rw [ihL xs v1 s1 r s' hp.2 h]
          exact ihE x s v1 s1 hp.1 he

/-- Counterexample to claim C9 as stated: the node
`FunctionCall(Reference("f"), [])` contains no `Print`, `Read`,
`FunctionDefinition` or assignment, yet with `f` bound in scope to a
function whose body is `Read`, two successive evaluations against the same
(unmodified) scope return `Number(1)` and then `Number(2)`. -/
theorem idempotence_cex :
    sideEffectFree (.functionCall (.reference "f") []) = true ∧
    eval 5 (.functionCall (.reference "f") []) ⟨readFnScope, [1, 2], []⟩
        = .ok (.num 1, ⟨readFnScope, [2], []⟩) ∧
    eval 5 (.functionCall (.reference "f") []) ⟨readFnScope, [2], []⟩
        = .ok (.num 2, ⟨readFnScope, [], []⟩) ∧
    Value.num 1 ≠ Value.num 2 := by
  refine ⟨by rfl, by rfl, by rfl, ?_⟩
  intro hh
  injection hh with h0
  exact absurd h0 (by decide)

/-- Claim C9 amended: for an expression containing no `Print`, `Read`,
`FunctionDefinition`, assignment, or `FunctionCall` (a call's callee body,
stored in the scope, may hide effects), successful evaluation leaves the
state (scope, input, output) unchanged, and a second evaluation yields the
identical result. -/
theorem pure_eval_idempotent (fuel : Nat) (e : Expr) (s : EvalState)
    (v : Value) (s' : EvalState) (hp : pureExpr e = true)
    (h : eval fuel e s = .ok (v, s')) :
    s' = s ∧ eval fuel e s' = .ok (v, s') := by
  have hs := (pure_preserve fuel).1 e s v s' hp h
  subst hs
  exact ⟨rfl, h⟩

/-- Witness for C9 amended: `1 + 2` evaluates to `Number(3)` twice without
changing the state. -/
theorem pure_eval_idempotent_w :
    st0 = st0 ∧
    eval 2 (.binaryOperation (.number 1) "+" (.number 2)) st0
        = .ok (.num 3, st0) :=
  pure_eval_idempotent 2 (.binaryOperation (.number 1) "+" (.number 2))
    st0 (.num 3) st0 (by rfl) (by rfl)

end Model
